import Mathlib

set_option linter.unusedVariables false

/-!
Verification of the asynchronous task-processing pipeline of the
go-image-vector repository: the Redis-backed task queue (queue/queue.go),
the worker pool draining it (worker/worker.go), and the batch
chunking/synthesis strategy (services/ollama.go,
ParallelExtractTextFromImages).

The Go code is embedded shallowly:

* JSON-compatible payload values become the inductive type JValue; the Go
  map[string]any becomes an association list.
* The Redis backend state becomes a function from queue name to the list of
  queued task payloads (RPush appends at the tail, BLPop removes the head).
* External collaborators (the Ollama inference calls, the embedding call,
  the database insert) are parameters of an Env record.  Every call to a
  collaborator is also logged in a List Effect so that theorems can state
  which calls an execution issues.
* A Go function returning (T, error) that can also panic becomes a
  GoResult: ok, err, or fault (an unrecovered panic).
* The fan-out/fan-in concurrency of the batch chunker is modelled by a
  completion-order parameter: the list of chunk indices in the order in
  which the concurrent chunk calls deliver their results.
* The worker pool (Start / Stop / processItems) becomes a small-step
  transition system PoolStep over PoolState.
-/

namespace GoImageVector

/-- A JSON-compatible value, the model of the payload values stored in the
Go map[string]any after encoding/json round-trips (numbers arrive as
float64, modelled as Int since the code immediately truncates with
int(val)). -/
inductive JValue where
  | jNull
  | jBool (b : Bool)
  | jNum (x : Int)
  | jStr (s : String)
  | jList (xs : List JValue)

/-- The Go map[string]any, as an association list. -/
abbrev JObj := List (String × JValue)

/-- Lookup of a key in a payload map, the model of the Go map index
task.Data[key]. -/
def dataGet : JObj → String → Option JValue
  | [], _ => none
  | (k, v) :: rest, key => if k = key then some v else dataGet rest key

/-- The type assertion v.(string) on an optional map entry. -/
def asGoString : Option JValue → Option String
  | some (.jStr s) => some s
  | _ => none

/-- The type assertion v.([]any) on an optional map entry. -/
def asGoList : Option JValue → Option (List JValue)
  | some (.jList xs) => some xs
  | _ => none

/-- The type assertion v.(float64) on an optional map entry, followed by the
truncation int(val) performed by the worker. -/
def asGoFloat : Option JValue → Option Int
  | some (.jNum x) => some x
  | _ => none

/-- The per-element type assertion path.(string) used when converting the
[]any of file paths to a []string (non-strings are skipped). -/
def jStrElem : JValue → Option String
  | .jStr s => some s
  | _ => none

/-- queue.TaskPayload: the serialized task envelope.  The created timestamp
(time.Time) is modelled by its UnixNano value. -/
structure TaskPayload where
  taskID : String
  taskType : String
  data : JObj
  created : Int

/-- The Redis lists backing the queues: each queue name holds the list of
pending task payloads, head = next to be dequeued. -/
abbrev QueueState := String → List TaskPayload

/-- queue.Enqueue (queue/queue.go): generates the task id with
fmt.Sprintf("%d", time.Now().UnixNano()) — modelled by toString of the
observed UnixNano value passed in as now — builds the TaskPayload envelope
and RPushes it onto the tail of the named queue.  Returns the task id and
the updated backend state. -/
def Enqueue (qs : QueueState) (queueName : String) (now : Int) (taskType : String)
    (data : JObj) : String × QueueState :=
  let taskID := toString now
  let task : TaskPayload :=
    { taskID := taskID, taskType := taskType, data := data, created := now }
  (taskID, fun q => if q = queueName then qs q ++ [task] else qs q)

/-- queue.Dequeue (queue/queue.go): BLPop removes the element at the head of
the named queue; when the queue is empty the timeout elapses and the Go
function returns (nil, nil), modelled as none with the state unchanged. -/
def Dequeue (qs : QueueState) (queueName : String) : Option TaskPayload × QueueState :=
  match qs queueName with
  | [] => (none, qs)
  | task :: rest => (some task, fun q => if q = queueName then rest else qs q)

/-- The n-th task handed out by successive Dequeue calls on one queue
(0-based), used to state the FIFO property. -/
def dequeueN (qs : QueueState) (queueName : String) : Nat → Option TaskPayload
  | 0 => (Dequeue qs queueName).1
  | n + 1 => dequeueN (Dequeue qs queueName).2 queueName n

/-- A backend with no queued tasks. -/
def emptyQueues : QueueState := fun _ => []

/-- Outcome of a Go call that returns (T, error) and may also panic: ok is a
nil-error return, err a non-nil error, fault an unrecovered panic that
propagates to the caller. -/
inductive GoResult (α : Type) where
  | ok (a : α)
  | err (e : String)
  | fault (msg : String)

/-- models.ImageEmbedding: the persisted media record. -/
structure ImageEmbedding where
  filePath : String
  text : String
  embedding : List Int
  isBatch : Bool
  batchID : String
  batchPaths : List String

/-- One call to an external collaborator, recorded in the effect trace of an
execution. -/
inductive Effect where
  | extractSingleCall (path : String)
  | extractMultiCall (paths : List String)
  | synthCall (texts : List String)
  | embedCall (text : String)
  | dbCreateCall (entry : ImageEmbedding)

/-- Whether an effect is the synthesis inference call. -/
def Effect.isSynth : Effect → Bool
  | .synthCall _ => true
  | _ => false

/-- The external collaborators of the worker: the single-image and
multi-image Ollama extraction calls, the synthesis generate call issued at
the end of ParallelExtractTextFromImages, the embedding call, and the
database insert (returning the assigned record id).  elapsedMs models the
wall-clock duration measurement of the batch handler. -/
structure Env where
  extractSingle : String → GoResult String
  extractMulti : List String → GoResult String
  synthesize : List String → GoResult String
  embed : String → GoResult (List Int)
  dbCreate : ImageEmbedding → GoResult Int
  elapsedMs : Int

/-- The value computed by the chunk-splitting loop of
ParallelExtractTextFromImages for chunk size k at least 1: ceil(N/k)
contiguous chunks of k items, the last chunk holding the remainder
(theorem runChunkLoop_finishes proves that the loop, modelled step by step
by chunkLoopStep / runChunkLoop, computes exactly this value).  For k = 0
the source loop never terminates and for negative k its first slice
operation panics, so those cases carry no guarantee (this closed form
returns [] there; see theorem chunk_loop_termination). -/
def chunksOf (k : Nat) (xs : List String) : List (List String) :=
  (List.range ((xs.length + k - 1) / k)).map fun i => (xs.drop (i * k)).take k

/-- State of the chunk-splitting loop in ParallelExtractTextFromImages:
the loop index i (a Go int, so an Int) and the chunks accumulated so far. -/
structure ChunkLoopState where
  i : Int
  acc : List (List String)

/-- Result of running the chunk-splitting loop for some number of steps. -/
inductive ChunkLoopResult where
  | running (s : ChunkLoopState)
  | finished (chunks : List (List String))
  | panicked

/-- The Go slice expression imagePaths[a:b] (meaningful when
0 <= a <= b <= len). -/
def goSlice (xs : List String) (a b : Int) : List String :=
  (xs.drop a.toNat).take (b - a).toNat

/-- The upper slice bound of one loop iteration: end := i + maxChunkSize,
clamped to len(imagePaths) when it exceeds it. -/
def goEnd (k : Int) (paths : List String) (i : Int) : Int :=
  if i + k > (paths.length : Int) then (paths.length : Int) else i + k

/-- One iteration of the chunk-splitting loop of
ParallelExtractTextFromImages (services/ollama.go):
for i := 0; i < len(imagePaths); i += maxChunkSize, appending the slice
imagePaths[i:end] with end as in goEnd.  A slice with bounds outside
0 <= i <= end panics at runtime, modelled by the panicked result. -/
def chunkLoopStep (k : Int) (paths : List String) (s : ChunkLoopState) : ChunkLoopResult :=
  if s.i < (paths.length : Int) then
    if 0 ≤ s.i ∧ s.i ≤ goEnd k paths s.i then
      .running { i := s.i + k, acc := s.acc ++ [goSlice paths s.i (goEnd k paths s.i)] }
    else
      .panicked
  else
    .finished s.acc

/-- Runs the chunk-splitting loop for at most fuel iterations; a running
result means the loop has not yet finished after that many iterations. -/
def runChunkLoop (k : Int) (paths : List String) : Nat → ChunkLoopState → ChunkLoopResult
  | 0, s => .running s
  | fuel + 1, s =>
    match chunkLoopStep k paths s with
    | .running s' => runChunkLoop k paths fuel s'
    | r => r

/-- The fan-in loop of ParallelExtractTextFromImages: the collected results
arrive on the result channel in completion order (the order parameter);
each carries its chunk index, and its text is stored at that index.  A
result carrying an error aborts the collection with that error (the Go
function returns it immediately). -/
def collectChunks (run : Nat → GoResult String) (order : List Nat)
    (acc : List String) : GoResult (List String) :=
  match order with
  | [] => .ok acc
  | i :: rest =>
    match run i with
    | .fault m => .fault m
    | .err e => .err e
    | .ok t => collectChunks run rest (acc.set i t)

/-- services.ParallelExtractTextFromImages (services/ollama.go).  order is
the completion order of the concurrent chunk calls (a permutation of the
chunk indices); maxParallel only bounds concurrency in the source and has
no effect on the computed value.  All chunk goroutines are launched and
eventually issue their extraction call (the result channel is buffered),
so the effect trace contains one extractMultiCall per chunk even when the
fan-in aborts early. -/
def ParallelExtractTextFromImages (env : Env) (order : List Nat) (imagePaths : List String)
    (maxChunkSize : Int) (maxParallel : Int) : GoResult String × List Effect :=
  if imagePaths.length = 0 then
    (.err "no image paths provided", [])
  else if (imagePaths.length : Int) ≤ maxChunkSize then
    (env.extractMulti imagePaths, [.extractMultiCall imagePaths])
  else
    let chunks := chunksOf maxChunkSize.toNat imagePaths
    let chunkEffs := chunks.map fun c => Effect.extractMultiCall c
    match collectChunks (fun i => env.extractMulti (chunks.getD i [])) order
        (List.replicate chunks.length "") with
    | .fault m => (.fault m, chunkEffs)
    | .err e => (.err e, chunkEffs)
    | .ok chunkTexts =>
      if chunkTexts.length = 1 then
        (.ok (chunkTexts.getD 0 ""), chunkEffs)
      else
        (env.synthesize chunkTexts, chunkEffs ++ [.synthCall chunkTexts])

/-- worker.TaskTypeAnalyzeImage. -/
def TaskTypeAnalyzeImage : String := "analyze_image"

/-- worker.TaskTypeAnalyzeMultipleImages. -/
def TaskTypeAnalyzeMultipleImages : String := "analyze_multiple_images"

/-- Outcome of a task handler as the worker loop sees it: ret models the Go
return (result, err) — both may be nil — and fault models a panic escaping
the handler (nothing in the worker recovers it). -/
inductive HandlerOutcome where
  | ret (result : Option JObj) (errMsg : Option String)
  | fault (msg : String)

/-- worker.processImageAnalysisTask (worker/worker.go): extracts file_path
from the task data (returning (nil, nil) when the assertion fails),
extracts text, generates the embedding, inserts the record, and returns
the id/file_path/text result map.  Any error return aborts at that step;
any panic propagates. -/
def processImageAnalysisTask (env : Env) (task : TaskPayload) :
    HandlerOutcome × List Effect :=
  match asGoString (dataGet task.data "file_path") with
  | none => (.ret none none, [])
  | some filePath =>
    match env.extractSingle filePath with
    | .fault m => (.fault m, [.extractSingleCall filePath])
    | .err e => (.ret none (some e), [.extractSingleCall filePath])
    | .ok text =>
      match env.embed text with
      | .fault m => (.fault m, [.extractSingleCall filePath, .embedCall text])
      | .err e => (.ret none (some e), [.extractSingleCall filePath, .embedCall text])
      | .ok embedding =>
        let imageEntry : ImageEmbedding :=
          { filePath := filePath, text := text, embedding := embedding,
            isBatch := false, batchID := "", batchPaths := [] }
        match env.dbCreate imageEntry with
        | .fault m =>
          (.fault m, [.extractSingleCall filePath, .embedCall text, .dbCreateCall imageEntry])
        | .err e =>
          (.ret none (some e),
           [.extractSingleCall filePath, .embedCall text, .dbCreateCall imageEntry])
        | .ok newID =>
          (.ret (some [("id", .jNum newID), ("file_path", .jStr filePath),
                       ("text", .jStr text)]) none,
           [.extractSingleCall filePath, .embedCall text, .dbCreateCall imageEntry])

/-- worker.processMultipleImagesAnalysisTask (worker/worker.go): extracts
file_paths (returning (nil, nil) when the []any assertion fails or no
element is a string), reads the chunk-size/parallelism configuration with
per-task overrides, extracts the journey text (directly for small batches,
via ParallelExtractTextFromImages otherwise), generates the embedding,
inserts the combined batch record, and returns the batch result map.
cfgChunkSize and cfgMaxParallel are the viper BATCH_CHUNK_SIZE and
BATCH_MAX_PARALLEL values. -/
def processMultipleImagesAnalysisTask (env : Env) (order : List Nat)
    (cfgChunkSize cfgMaxParallel : Int) (task : TaskPayload) :
    HandlerOutcome × List Effect :=
  match asGoList (dataGet task.data "file_paths") with
  | none => (.ret none none, [])
  | some filePaths =>
    let stringPaths := filePaths.filterMap jStrElem
    if stringPaths.length = 0 then (.ret none none, [])
    else
      let maxChunkSize := (asGoFloat (dataGet task.data "max_chunk_size")).getD cfgChunkSize
      let maxParallel := (asGoFloat (dataGet task.data "max_parallel")).getD cfgMaxParallel
      let extracted :=
        if (stringPaths.length : Int) ≤ maxChunkSize then
          (env.extractMulti stringPaths, [Effect.extractMultiCall stringPaths])
        else
          ParallelExtractTextFromImages env order stringPaths maxChunkSize maxParallel
      match extracted.1 with
      | .fault m => (.fault m, extracted.2)
      | .err e => (.ret none (some e), extracted.2)
      | .ok journeyText =>
        match env.embed journeyText with
        | .fault m => (.fault m, extracted.2 ++ [.embedCall journeyText])
        | .err e => (.ret none (some e), extracted.2 ++ [.embedCall journeyText])
        | .ok embedding =>
          let batchID := task.taskID
          let journeyEntry : ImageEmbedding :=
            { filePath := stringPaths.headD "", text := journeyText, embedding := embedding,
              isBatch := true, batchID := batchID, batchPaths := stringPaths }
          match env.dbCreate journeyEntry with
          | .fault m =>
            (.fault m, extracted.2 ++ [.embedCall journeyText, .dbCreateCall journeyEntry])
          | .err e =>
            (.ret none (some e),
             extracted.2 ++ [.embedCall journeyText, .dbCreateCall journeyEntry])
          | .ok newID =>
            (.ret (some [("id", .jNum newID),
                         ("file_path", .jStr (stringPaths.headD "")),
                         ("text", .jStr journeyText),
                         ("file_count", .jNum stringPaths.length),
                         ("is_batch", .jBool true),
                         ("batch_id", .jStr batchID),
                         ("batch_paths", .jList (stringPaths.map JValue.jStr)),
                         ("processing_time_ms", .jNum env.elapsedMs)]) none,
             extracted.2 ++ [.embedCall journeyText, .dbCreateCall journeyEntry])

/-- The switch on task.TaskType in worker.processItems: the two registered
handlers, with the default branch producing processErr = nil and the
explanatory unknown-task-type result map. -/
def dispatchTask (env : Env) (order : List Nat) (cfgChunkSize cfgMaxParallel : Int)
    (task : TaskPayload) : HandlerOutcome × List Effect :=
  if task.taskType = TaskTypeAnalyzeImage then
    processImageAnalysisTask env task
  else if task.taskType = TaskTypeAnalyzeMultipleImages then
    processMultipleImagesAnalysisTask env order cfgChunkSize cfgMaxParallel task
  else
    (.ret (some [("error", .jStr "unknown task type")]) none, [])

/-- One write against the Redis task-status/result store. -/
inductive QueueWrite where
  | setStatus (taskID : String) (status : String)
  | storeResult (taskID : String) (result : Option JObj)

/-- The terminal status and result writes of one worker iteration
(worker.processItems, after the handler returns): a non-nil handler error
records failed plus the error payload, a nil error records completed plus
the handler result (which may be nil).  A faulting handler records
nothing. -/
def recordWrites (env : Env) (order : List Nat) (cfgChunkSize cfgMaxParallel : Int)
    (task : TaskPayload) : List QueueWrite :=
  match (dispatchTask env order cfgChunkSize cfgMaxParallel task).1 with
  | .ret _ (some e) =>
    [.setStatus task.taskID "failed",
     .storeResult task.taskID (some [("error", .jStr e)])]
  | .ret result none =>
    [.setStatus task.taskID "completed", .storeResult task.taskID result]
  | .fault _ => []

/-- What queue.Dequeue gave this worker iteration: an error, no task
(timeout), or a task. -/
inductive DequeueOutcome where
  | derr (e : String)
  | empty
  | got (task : TaskPayload)

/-- How one iteration of the worker loop ends: the loop returns (stop
signal), sleeps and retries (dequeue error or no task), continues to the
next iteration after processing a task, or dies because an unrecovered
panic escaped the handler. -/
inductive IterOutcome where
  | stopped
  | retry
  | continued
  | crashed (msg : String)

/-- One iteration of worker.processItems (worker/worker.go): the select
checks the stop channel first; otherwise the dequeue outcome is handled;
a dequeued task is marked processing, dispatched, and its terminal status
and result are recorded.  There is no recover in the loop, so a handler
panic leaves only the processing status behind and kills the worker
goroutine (outcome crashed). -/
def processItemsIteration (env : Env) (order : List Nat) (cfgChunkSize cfgMaxParallel : Int)
    (stopClosed : Bool) (dq : DequeueOutcome) :
    IterOutcome × List QueueWrite × List Effect :=
  if stopClosed then (.stopped, [], [])
  else
    match dq with
    | .derr _ => (.retry, [], [])
    | .empty => (.retry, [], [])
    | .got task =>
      let handled := dispatchTask env order cfgChunkSize cfgMaxParallel task
      match handled.1 with
      | .fault m => (.crashed m, [.setStatus task.taskID "processing"], handled.2)
      | .ret _ _ =>
        (.continued,
         .setStatus task.taskID "processing" ::
           recordWrites env order cfgChunkSize cfgMaxParallel task,
         handled.2)

/-- Where one worker goroutine is in its processItems loop: at the select
(loop boundary), mid-iteration with a dequeued task, with the terminal
writes of that task recorded, or exited (done signal delivered to Stop,
a rendezvous on the unbuffered done channel). -/
inductive WorkerPhase where
  | atSelect
  | working (task : TaskPayload)
  | recorded (task : TaskPayload)
  | exited

/-- Whether a worker phase is exited. -/
def WorkerPhase.isExited : WorkerPhase → Bool
  | .exited => true
  | _ => false

/-- Global state of the worker pool: the stop channel (closed or not), the
phase of each of the worker goroutines, the accumulated status/result
writes, the number of done signals Stop has received, and whether Stop has
returned. -/
structure PoolState where
  stopClosed : Bool
  phases : List WorkerPhase
  writes : List QueueWrite
  doneCount : Nat
  stopReturned : Bool

/-- Small-step semantics of the worker pool (worker.Start, worker.Stop,
worker.processItems), parameterized by the terminal writes record t that
one iteration appends for task t (instantiated with recordWrites).
closeStop is close(stopChan); dequeueGot is a successful dequeue plus the
processing status write; finishTask is handler completion plus the
terminal writes; loopAgain returns to the select; workerExit is the select
observing the closed stop channel, the loop returning, and Stop receiving
the done signal; stopReturn is Stop returning after all done signals. -/
inductive PoolStep (record : TaskPayload → List QueueWrite) : PoolState → PoolState → Prop where
  | closeStop (s : PoolState) :
      PoolStep record s { s with stopClosed := true }
  | dequeueGot (s : PoolState) (i : Nat) (t : TaskPayload) :
      s.stopClosed = false → s.phases[i]? = some .atSelect →
      PoolStep record s
        { s with phases := s.phases.set i (.working t),
                 writes := s.writes ++ [.setStatus t.taskID "processing"] }
  | finishTask (s : PoolState) (i : Nat) (t : TaskPayload) :
      s.phases[i]? = some (.working t) →
      PoolStep record s
        { s with phases := s.phases.set i (.recorded t),
                 writes := s.writes ++ record t }
  | loopAgain (s : PoolState) (i : Nat) (t : TaskPayload) :
      s.phases[i]? = some (.recorded t) →
      PoolStep record s { s with phases := s.phases.set i .atSelect }
  | workerExit (s : PoolState) (i : Nat) :
      s.stopClosed = true → s.phases[i]? = some .atSelect →
      PoolStep record s
        { s with phases := s.phases.set i .exited, doneCount := s.doneCount + 1 }
  | stopReturn (s : PoolState) :
      s.stopClosed = true → s.doneCount = s.phases.length →
      PoolStep record s { s with stopReturned := true }

/-- Reachability in the pool semantics. -/
def PoolReaches (record : TaskPayload → List QueueWrite) : PoolState → PoolState → Prop :=
  Relation.ReflTransGen (PoolStep record)

/-- The pool as worker.Start launches it: n workers at their loop
boundaries, nothing written, no done signals, Stop not called. -/
def initPool (n : Nat) : PoolState :=
  { stopClosed := false, phases := List.replicate n .atSelect, writes := [],
    doneCount := 0, stopReturned := false }

/-- Pool invariant: the done-signal count equals the number of exited
workers, and Stop has returned only if the stop channel is closed and all
done signals were received. -/
def PoolInv (s : PoolState) : Prop :=
  s.doneCount = s.phases.countP WorkerPhase.isExited ∧
    (s.stopReturned = true → s.stopClosed = true ∧ s.doneCount = s.phases.length)

/-! Concrete instances used to evaluate the embedded code on explicit
inputs. -/

/-- An environment whose collaborators all succeed trivially. -/
def envUnit : Env :=
  { extractSingle := fun _ => .ok "text",
    extractMulti := fun _ => .ok "text",
    synthesize := fun _ => .ok "combined",
    embed := fun _ => .ok [1],
    dbCreate := fun _ => .ok 1,
    elapsedMs := 0 }

/-- An environment whose single-image extraction call panics. -/
def envFaulting : Env :=
  { envUnit with extractSingle := fun _ => .fault "runtime error: invalid memory address" }

/-- A task of a registered type whose handler will hit the faulting
extraction call. -/
def taskFaulting : TaskPayload :=
  { taskID := "100", taskType := TaskTypeAnalyzeImage,
    data := [("file_path", .jStr "a.png")], created := 0 }

/-- A task whose type is not registered in the dispatcher. -/
def taskUnknown : TaskPayload :=
  { taskID := "7", taskType := "transcode_video", data := [], created := 0 }

/-- A task of a registered type whose payload lacks the expected key. -/
def taskNoPath : TaskPayload :=
  { taskID := "8", taskType := TaskTypeAnalyzeImage, data := [], created := 0 }

/-- A batch task over four paths with a chunk-size override of 2. -/
def taskBatch : TaskPayload :=
  { taskID := "9", taskType := TaskTypeAnalyzeMultipleImages,
    data := [("file_paths", .jList [.jStr "p0", .jStr "p1", .jStr "p2", .jStr "p3"]),
             ("max_chunk_size", .jNum 2)],
    created := 0 }

/-- An environment whose multi-image extraction fails on the second chunk
of taskBatch and succeeds elsewhere. -/
def envChunkFail : Env :=
  { envUnit with
    extractMulti := fun paths => if paths = ["p2", "p3"] then .err "chunk boom" else .ok "t" }

/-- Pool state used in the shutdown witness: one worker mid-handler on
taskUnknown, its processing status already written. -/
def poolMid : PoolState :=
  { stopClosed := false, phases := [.working taskUnknown],
    writes := [.setStatus "7" "processing"], doneCount := 0, stopReturned := false }

/-- Pool state used in the shutdown witness: the worker recorded the task
outcome, exited, and Stop returned. -/
def poolFinal : PoolState :=
  { stopClosed := true, phases := [.exited],
    writes := [.setStatus "7" "processing", .setStatus "7" "completed",
               .storeResult "7" (some [("error", .jStr "unknown task type")])],
    doneCount := 1, stopReturned := true }

/-! ## Decimal string representation

The task id is fmt.Sprintf of the UnixNano value, so distinctness of ids
reduces to injectivity of the decimal representation, proved here from the
Mathlib theory of digits. -/

/-- Nat.toDigitsCore with enough fuel produces the decimal digits (least
significant first in Nat.digits, so reversed here) mapped to characters. -/
theorem toDigitsCore_eq_digits (b : Nat) (hb : 2 ≤ b) :
    ∀ fuel n acc, 0 < n → n < fuel →
      Nat.toDigitsCore b fuel n acc =
        ((Nat.digits b n).map Nat.digitChar).reverse ++ acc := by
  intro fuel
  induction fuel with
  | zero => intro n acc h0 hf; omega
  | succ fuel ih =>
    intro n acc h0 hf
    rw [Nat.toDigitsCore]
    by_cases hdiv : n / b = 0
    · simp only [hdiv, if_pos rfl]
      rw [Nat.digits_def' (by omega : 1 < b) h0, hdiv, Nat.digits_zero]
      simp
    · simp only [if_neg hdiv]
      rw [ih (n / b) _ (Nat.pos_of_ne_zero hdiv)
          (by
            have : n / b < n := Nat.div_lt_self h0 (by omega)
            omega)]
      rw [Nat.digits_def' (by omega : 1 < b) h0]
      simp

/-- Nat.repr of a positive number is its digit characters, most significant
first. -/
theorem natRepr_eq (n : Nat) (h0 : 0 < n) :
    Nat.repr n = (((Nat.digits 10 n).map Nat.digitChar).reverse).asString := by
  rw [Nat.repr, Nat.toDigits,
    toDigitsCore_eq_digits 10 (by norm_num) (n + 1) n [] h0 (by omega)]
  simp

/-- digitChar is injective on decimal digits. -/
theorem digitChar_injOn : ∀ d1, d1 < 10 → ∀ d2, d2 < 10 →
    Nat.digitChar d1 = Nat.digitChar d2 → d1 = d2 := by decide

/-- Only the digit 0 prints as the character 0. -/
theorem digitChar_eq_zero : ∀ d, d < 10 → Nat.digitChar d = '0' → d = 0 := by decide

/-- No decimal digit prints as a minus sign. -/
theorem digitCharLt_ne_dash : ∀ d, d < 10 → Nat.digitChar d ≠ '-' := by decide

/-- Mapping digitChar over lists of decimal digits is injective. -/
theorem map_digitChar_inj : ∀ l1 l2 : List Nat, (∀ x ∈ l1, x < 10) → (∀ x ∈ l2, x < 10) →
    l1.map Nat.digitChar = l2.map Nat.digitChar → l1 = l2 := by
  intro l1
  induction l1 with
  | nil => intro l2 _ _ h; cases l2 <;> simp_all
  | cons x xs ih =>
    intro l2 h1 h2 h
    cases l2 with
    | nil => simp_all
    | cons y ys =>
      simp only [List.map_cons, List.cons.injEq] at h
      have hx : x = y :=
        digitChar_injOn x (h1 x (by simp)) y (h2 y (by simp)) h.1
      subst hx
      rw [ih ys (fun z hz => h1 z (by simp [hz])) (fun z hz => h2 z (by simp [hz])) h.2]

/-- The digit characters of a positive number are never the single
character 0. -/
theorem digits_map_ne_zero_char (m : Nat) (hm : 0 < m) :
    ((Nat.digits 10 m).map Nat.digitChar).reverse ≠ ['0'] := by
  intro hEq
  have hmap : (Nat.digits 10 m).map Nat.digitChar = ['0'] := by
    have := congrArg List.reverse hEq
    simpa using this
  cases hdig : Nat.digits 10 m with
  | nil => rw [hdig] at hmap; simp at hmap
  | cons d rest =>
    rw [hdig] at hmap
    simp only [List.map_cons, List.cons.injEq] at hmap
    have hrest : rest = [] := by
      have := hmap.2
      cases rest <;> simp_all
    subst hrest
    have hd10 : d < 10 := Nat.digits_lt_base' (by rw [hdig]; simp)
    have hd0 : d = 0 := digitChar_eq_zero d hd10 hmap.1
    subst hd0
    have : m = Nat.ofDigits 10 (Nat.digits 10 m) := (Nat.ofDigits_digits 10 m).symm
    rw [hdig] at this
    simp [Nat.ofDigits] at this
    omega

/-- The decimal representation of a natural number is injective. -/
theorem natRepr_injective : Function.Injective Nat.repr := by
  intro n m h
  by_contra hne
  rcases Nat.eq_zero_or_pos n with hn | hn
  · subst hn
    have hm : 0 < m := Nat.pos_of_ne_zero fun h0 => hne (by rw [h0])
    rw [natRepr_eq m hm] at h
    have hL : (['0'] : List Char) = ((Nat.digits 10 m).map Nat.digitChar).reverse :=
      List.asString_inj.mp h
    exact digits_map_ne_zero_char m hm hL.symm
  · rcases Nat.eq_zero_or_pos m with hm | hm
    · subst hm
      rw [natRepr_eq n hn] at h
      have hL : ((Nat.digits 10 n).map Nat.digitChar).reverse = (['0'] : List Char) :=
        List.asString_inj.mp h
      exact digits_map_ne_zero_char n hn hL
    · rw [natRepr_eq n hn, natRepr_eq m hm] at h
      have hrev := List.reverse_injective (List.asString_inj.mp h)
      have hdig := map_digitChar_inj _ _ (fun x hx => Nat.digits_lt_base' hx)
        (fun x hx => Nat.digits_lt_base' hx) hrev
      exact hne (Nat.digits_inj_iff.mp hdig)

/-- The decimal representation of a natural number never starts with a
minus sign. -/
theorem natRepr_head_ne_dash (n : Nat) (c : Char) (hc : (Nat.repr n).data.head? = some c) :
    c ≠ '-' := by
  rcases Nat.eq_zero_or_pos n with hn | hn
  · subst hn
    have : ([ '0' ] : List Char).head? = some c := hc
    have hc0 : c = '0' := by simpa using this.symm
    subst hc0; decide
  · rw [natRepr_eq n hn] at hc
    have hmem : c ∈ ((Nat.digits 10 n).map Nat.digitChar).reverse :=
      List.mem_of_mem_head? hc
    rw [List.mem_reverse, List.mem_map] at hmem
    obtain ⟨d, hd, rfl⟩ := hmem
    exact digitCharLt_ne_dash d (Nat.digits_lt_base' hd)

/-- The decimal representation of an integer is injective. -/
theorem intRepr_injective : Function.Injective Int.repr := by
  intro a b h
  cases a with
  | ofNat m =>
    cases b with
    | ofNat n =>
      have : Nat.repr m = Nat.repr n := h
      rw [natRepr_injective this]
    | negSucc n =>
      exfalso
      have hdata : (Nat.repr m).data = '-' :: (Nat.repr (n + 1)).data :=
        congrArg String.data h
      have : (Nat.repr m).data.head? = some '-' := by rw [hdata]; rfl
      exact natRepr_head_ne_dash m '-' this rfl
  | negSucc m =>
    cases b with
    | ofNat n =>
      exfalso
      have hdata : '-' :: (Nat.repr (m + 1)).data = (Nat.repr n).data :=
        congrArg String.data h
      have : (Nat.repr n).data.head? = some '-' := by rw [← hdata]; rfl
      exact natRepr_head_ne_dash n '-' this rfl
    | negSucc n =>
      have hdata : '-' :: (Nat.repr (m + 1)).data = '-' :: (Nat.repr (n + 1)).data :=
        congrArg String.data h
      have hrepr : Nat.repr (m + 1) = Nat.repr (n + 1) := by
        have := List.tail_eq_of_cons_eq hdata
        cases hr1 : Nat.repr (m + 1); cases hr2 : Nat.repr (n + 1)
        simp_all
      have hmn : m = n := by
        have := natRepr_injective hrepr
        omega
      subst hmn; rfl

/-- toString on integers is injective. -/
theorem intToString_injective : Function.Injective (fun i : Int => toString i) := by
  intro a b h
  exact intRepr_injective h

/-! ## Task queue: FIFO order, independence, id generation -/

/-- Dequeue hands out the head of the named queue. -/
theorem Dequeue_fst (qs : QueueState) (q : String) :
    (Dequeue qs q).1 = (qs q).head? := by
  unfold Dequeue
  split <;> simp_all

/-- Dequeue leaves the named queue equal to its tail. -/
theorem Dequeue_snd_self (qs : QueueState) (q : String) :
    (Dequeue qs q).2 q = (qs q).tail := by
  unfold Dequeue
  split <;> simp_all

/-- Dequeue on one queue name does not change any other queue. -/
theorem Dequeue_snd_other (qs : QueueState) (q q' : String) (h : q' ≠ q) :
    (Dequeue qs q).2 q' = qs q' := by
  unfold Dequeue
  split <;> simp_all

/-- The n-th dequeued task is the n-th element of the queue list. -/
theorem dequeueN_eq_getElem (q : String) :
    ∀ (n : Nat) (qs : QueueState), dequeueN qs q n = (qs q)[n]? := by
  intro n
  induction n with
  | zero =>
    intro qs
    rw [dequeueN, Dequeue_fst, List.head?_eq_getElem?]
  | succ n ih =>
    intro qs
    rw [dequeueN, ih, Dequeue_snd_self, List.getElem?_tail]

/-- Enqueue appends the task envelope at the tail of the named queue. -/
theorem Enqueue_snd_self (qs : QueueState) (q : String) (now : Int) (ty : String) (d : JObj) :
    (Enqueue qs q now ty d).2 q =
      qs q ++ [{ taskID := toString now, taskType := ty, data := d, created := now }] := by
  simp [Enqueue]

/-- Enqueue on one queue name does not change any other queue. -/
theorem Enqueue_snd_other (qs : QueueState) (q q' : String) (h : q' ≠ q)
    (now : Int) (ty : String) (d : JObj) :
    (Enqueue qs q now ty d).2 q' = qs q' := by
  simp [Enqueue, h]

/-- C6: the queue is FIFO per name: enqueue RPushes the serialized task at
the tail and dequeue BLPops from the head, so after enqueueing A then B on
the same name, A is dequeued at position length of the prior content and B
right after it (A no later than B); enqueue and dequeue on one name leave
every other name untouched. -/
theorem queue_fifo_per_name (qs : QueueState) (q q' : String) (hne : q' ≠ q)
    (nowA nowB : Int) (tyA tyB : String) (dA dB : JObj) :
    (Enqueue (Enqueue qs q nowA tyA dA).2 q nowB tyB dB).2 q =
      qs q ++ [{ taskID := toString nowA, taskType := tyA, data := dA, created := nowA },
               { taskID := toString nowB, taskType := tyB, data := dB, created := nowB }] ∧
    dequeueN (Enqueue (Enqueue qs q nowA tyA dA).2 q nowB tyB dB).2 q (qs q).length =
      some { taskID := toString nowA, taskType := tyA, data := dA, created := nowA } ∧
    dequeueN (Enqueue (Enqueue qs q nowA tyA dA).2 q nowB tyB dB).2 q ((qs q).length + 1) =
      some { taskID := toString nowB, taskType := tyB, data := dB, created := nowB } ∧
    (Enqueue (Enqueue qs q nowA tyA dA).2 q nowB tyB dB).2 q' = qs q' ∧
    (Dequeue (Enqueue (Enqueue qs q nowA tyA dA).2 q nowB tyB dB).2 q).2 q' = qs q' := by
  have hq : (Enqueue (Enqueue qs q nowA tyA dA).2 q nowB tyB dB).2 q =
      qs q ++ [{ taskID := toString nowA, taskType := tyA, data := dA, created := nowA },
               { taskID := toString nowB, taskType := tyB, data := dB, created := nowB }] := by
    rw [Enqueue_snd_self, Enqueue_snd_self]
    simp
  refine ⟨hq, ?_, ?_, ?_, ?_⟩
  · rw [dequeueN_eq_getElem, hq]
    rw [List.getElem?_append_right (by omega)]
    simp
  · rw [dequeueN_eq_getElem, hq]
    rw [List.getElem?_append_right (by omega)]
    simp
  · rw [Enqueue_snd_other _ _ _ hne, Enqueue_snd_other _ _ _ hne]
  · rw [Dequeue_snd_other _ _ _ hne, Enqueue_snd_other _ _ _ hne,
      Enqueue_snd_other _ _ _ hne]

/-- Witness for queue_fifo_per_name at concrete inputs. -/
theorem queue_fifo_per_name_witness :
    "b" ≠ "a" ∧
    dequeueN (Enqueue (Enqueue emptyQueues "a" 5 "t1" []).2 "a" 6 "t2" []).2 "a" 0 =
      some { taskID := "5", taskType := "t1", data := [], created := 5 } := by
  refine ⟨by decide, ?_⟩
  have h := queue_fifo_per_name emptyQueues "a" "b" (by decide) 5 6 "t1" "t2" [] []
  have h2 := h.2.1
  simpa [emptyQueues] using h2

/-- C8 counterexample: two distinct enqueue calls (different queue names and
task types) that observe the same UnixNano timestamp return the same task
id, so enqueue does not guarantee distinct ids for concurrent calls. -/
theorem enqueue_id_collision :
    (Enqueue emptyQueues "q1" 42 "analyze_image" []).1 =
      (Enqueue emptyQueues "q2" 42 "analyze_media" []).1 ∧
    "q1" ≠ "q2" ∧ "analyze_image" ≠ "analyze_media" := by
  exact ⟨rfl, by decide, by decide⟩

/-- C8 amended: two enqueue calls return distinct task ids whenever they
observe distinct UnixNano timestamps; ids collide exactly when the
timestamps coincide. -/
theorem enqueue_id_fresh (qs1 qs2 : QueueState) (q1 q2 : String) (n1 n2 : Int)
    (ty1 ty2 : String) (d1 d2 : JObj) (h : n1 ≠ n2) :
    (Enqueue qs1 q1 n1 ty1 d1).1 ≠ (Enqueue qs2 q2 n2 ty2 d2).1 := by
  intro hEq
  exact h (intToString_injective hEq)

/-- Witness for enqueue_id_fresh at concrete inputs. -/
theorem enqueue_id_fresh_witness :
    (0 : Int) ≠ 1 ∧
      (Enqueue emptyQueues "a" 0 "t" []).1 ≠ (Enqueue emptyQueues "a" 1 "t" []).1 :=
  ⟨by decide, enqueue_id_fresh emptyQueues emptyQueues "a" "a" 0 1 "t" "t" [] [] (by decide)⟩

/-! ## Worker loop: unknown types, malformed payloads, handler panics -/

/-- C1: a dequeued task whose type matches neither registered handler is
recorded as completed — never failed — with the result payload flagging
the unknown task type, and the iteration continues the loop without any
collaborator call. -/
theorem unknown_task_type_completed (env : Env) (order : List Nat)
    (cfgChunkSize cfgMaxParallel : Int) (task : TaskPayload)
    (h1 : task.taskType ≠ TaskTypeAnalyzeImage)
    (h2 : task.taskType ≠ TaskTypeAnalyzeMultipleImages) :
    processItemsIteration env order cfgChunkSize cfgMaxParallel false (.got task) =
      (.continued,
       [.setStatus task.taskID "processing",
        .setStatus task.taskID "completed",
        .storeResult task.taskID (some [("error", .jStr "unknown task type")])],
       []) := by
  simp [processItemsIteration, dispatchTask, recordWrites, h1, h2]

/-- Witness for unknown_task_type_completed on taskUnknown. -/
theorem unknown_task_type_completed_witness :
    taskUnknown.taskType ≠ TaskTypeAnalyzeImage ∧
    taskUnknown.taskType ≠ TaskTypeAnalyzeMultipleImages ∧
    processItemsIteration envUnit [] 3 4 false (.got taskUnknown) =
      (.continued,
       [.setStatus taskUnknown.taskID "processing",
        .setStatus taskUnknown.taskID "completed",
        .storeResult taskUnknown.taskID (some [("error", .jStr "unknown task type")])],
       []) :=
  ⟨by decide, by decide,
   unknown_task_type_completed envUnit [] 3 4 taskUnknown (by decide) (by decide)⟩

/-- C2, as the code actually behaves: the worker loop has no recover, so a
panic escaping a handler kills the worker goroutine after only the
processing status write — no failed status and no error result are
recorded. -/
theorem handler_fault_kills_worker :
    processItemsIteration envFaulting [] 3 4 false (.got taskFaulting) =
      (.crashed "runtime error: invalid memory address",
       [.setStatus "100" "processing"],
       [.extractSingleCall "a.png"]) := rfl

/-- C9: a task of a registered analysis type whose payload lacks the
expected key — file_path missing or not a string for the single handler;
file_paths missing, not a list, or holding no strings for the batch
handler — yields handler return (nil, nil), so the worker records
completed with a nil result payload and no collaborator is called. -/
theorem malformed_payload_completed_nil (env : Env) (order : List Nat)
    (cfgChunkSize cfgMaxParallel : Int) (task : TaskPayload)
    (h : (task.taskType = TaskTypeAnalyzeImage ∧
            asGoString (dataGet task.data "file_path") = none) ∨
         (task.taskType = TaskTypeAnalyzeMultipleImages ∧
            (asGoList (dataGet task.data "file_paths") = none ∨
             ∃ xs, asGoList (dataGet task.data "file_paths") = some xs ∧
               xs.filterMap jStrElem = []))) :
    processItemsIteration env order cfgChunkSize cfgMaxParallel false (.got task) =
      (.continued,
       [.setStatus task.taskID "processing",
        .setStatus task.taskID "completed",
        .storeResult task.taskID none],
       []) := by
  rcases h with ⟨hty, hkey⟩ | ⟨hty, hkey⟩
  · simp [processItemsIteration, dispatchTask, recordWrites, processImageAnalysisTask,
      hty, hkey]
  · have hne : task.taskType ≠ TaskTypeAnalyzeImage := by
      rw [hty]; decide
    rcases hkey with hnone | ⟨xs, hxs, hempty⟩
    · simp [processItemsIteration, dispatchTask, recordWrites,
        processMultipleImagesAnalysisTask, TaskTypeAnalyzeImage,
        TaskTypeAnalyzeMultipleImages, hty, hne, hnone]
    · simp [processItemsIteration, dispatchTask, recordWrites,
        processMultipleImagesAnalysisTask, TaskTypeAnalyzeImage,
        TaskTypeAnalyzeMultipleImages, hty, hne, hxs, hempty]

/-- Witness for malformed_payload_completed_nil on taskNoPath. -/
theorem malformed_payload_completed_nil_witness :
    (taskNoPath.taskType = TaskTypeAnalyzeImage ∧
       asGoString (dataGet taskNoPath.data "file_path") = none) ∧
    processItemsIteration envUnit [] 3 4 false (.got taskNoPath) =
      (.continued,
       [.setStatus taskNoPath.taskID "processing",
        .setStatus taskNoPath.taskID "completed",
        .storeResult taskNoPath.taskID none],
       []) :=
  ⟨⟨rfl, rfl⟩,
   malformed_payload_completed_nil envUnit [] 3 4 taskNoPath (Or.inl ⟨rfl, rfl⟩)⟩

/-! ## The chunk-splitting loop -/

/-- Unfolding of chunksOf on a nonempty list and positive chunk size: the
first chunk holds the first k items, the rest partitions the remainder. -/
theorem chunksOf_ne_nil_eq (k : Nat) (hk : 1 ≤ k) (xs : List String) (hxs : xs ≠ []) :
    chunksOf k xs = xs.take k :: chunksOf k (xs.drop k) := by
  have hlen : 1 ≤ xs.length := List.length_pos.mpr hxs
  have harith : (xs.length + k - 1) / k = ((xs.length - k) + k - 1) / k + 1 := by
    have h1 : xs.length + k - 1 = (xs.length - 1) + k := by omega
    rw [h1, Nat.add_div_right _ (by omega)]
    rcases le_or_lt xs.length k with hle | hlt
    · have h2 : xs.length - k = 0 := by omega
      rw [h2]
      have h3 : (0 + k - 1) / k = 0 := Nat.div_eq_of_lt (by omega)
      have h4 : (xs.length - 1) / k = 0 := Nat.div_eq_of_lt (by omega)
      omega
    · have h2 : xs.length - k + k - 1 = (xs.length - k - 1) + k := by omega
      rw [h2, Nat.add_div_right _ (by omega)]
      have h3 : xs.length - 1 = (xs.length - k - 1) + k := by omega
      rw [h3, Nat.add_div_right _ (by omega)]
  unfold chunksOf
  rw [List.length_drop, harith, List.range_succ_eq_map]
  simp only [List.map_cons, List.map_map]
  congr 1
  · simp
  · apply List.map_congr_left
    intro i hi
    simp only [Function.comp]
    rw [List.drop_drop]
    congr 2
    rw [Nat.succ_mul]
    omega

/-- The loop, started at index j with positive chunk size, finishes with the
chunks of the remaining suffix appended to the accumulator. -/
theorem runChunkLoop_finishes (k : Int) (hk : 1 ≤ k) (paths : List String) :
    ∀ (j : Nat) (acc : List (List String)),
      ∃ fuel, runChunkLoop k paths fuel ⟨(j : Int), acc⟩ =
        .finished (acc ++ chunksOf k.toNat (paths.drop j)) := by
  suffices H : ∀ (m j : Nat) (acc : List (List String)), paths.length - j ≤ m →
      ∃ fuel, runChunkLoop k paths fuel ⟨(j : Int), acc⟩ =
        .finished (acc ++ chunksOf k.toNat (paths.drop j)) by
    intro j acc
    exact H (paths.length - j) j acc le_rfl
  intro m
  induction m with
  | zero =>
    intro j acc hm
    have hj : paths.length ≤ j := by omega
    refine ⟨1, ?_⟩
    have hstep : chunkLoopStep k paths ⟨(j : Int), acc⟩ = .finished acc := by
      rw [chunkLoopStep]
      rw [if_neg (by push_cast; omega)]
    rw [runChunkLoop, hstep]
    rw [List.drop_eq_nil_of_le hj]
    simp [chunksOf]
    exact Nat.div_eq_of_lt (by omega)
  | succ m ih =>
    intro j acc hm
    by_cases hj : paths.length ≤ j
    · have hstep : chunkLoopStep k paths ⟨(j : Int), acc⟩ = .finished acc := by
        rw [chunkLoopStep]
        rw [if_neg (by push_cast; omega)]
      refine ⟨1, ?_⟩
      rw [runChunkLoop, hstep]
      rw [List.drop_eq_nil_of_le hj]
      simp [chunksOf]
      exact Nat.div_eq_of_lt (by omega)
    · push_neg at hj
      have hkn : (k.toNat : Int) = k := Int.toNat_of_nonneg (by omega)
      have hchunk : goSlice paths (j : Int) (goEnd k paths (j : Int)) =
          (paths.drop j).take k.toNat := by
        unfold goSlice goEnd
        split
        · have h1 : ((paths.length : Int) - (j : Int)).toNat = paths.length - j := by
            omega
          rw [Int.toNat_ofNat, h1]
          rw [List.take_of_length_le (by simp)]
          rw [List.take_of_length_le (by simp; omega)]
        · have h1 : ((j : Int) + k - (j : Int)).toNat = k.toNat := by omega
          rw [Int.toNat_ofNat, h1]
      have hcond : (0 : Int) ≤ (j : Int) ∧ (j : Int) ≤ goEnd k paths (j : Int) := by
        refine ⟨by positivity, ?_⟩
        unfold goEnd
        split <;> omega
      have hstep : chunkLoopStep k paths ⟨(j : Int), acc⟩ =
          .running ⟨(j : Int) + k, acc ++ [(paths.drop j).take k.toNat]⟩ := by
        rw [chunkLoopStep]
        rw [if_pos (show ((j : Int) : Int) < (paths.length : Int) by omega)]
        rw [if_pos hcond]
        rw [hchunk]
      obtain ⟨fuel, hfuel⟩ := ih (j + k.toNat) (acc ++ [(paths.drop j).take k.toNat])
        (by omega)
      refine ⟨fuel + 1, ?_⟩
      rw [runChunkLoop, hstep]
      have hcast : (j : Int) + k = ((j + k.toNat : Nat) : Int) := by push_cast; omega
      show runChunkLoop k paths fuel ⟨(j : Int) + k, acc ++ [(paths.drop j).take k.toNat]⟩ =
        .finished (acc ++ chunksOf k.toNat (paths.drop j))
      rw [hcast, hfuel]
      rw [chunksOf_ne_nil_eq k.toNat (by omega) (paths.drop j)
        (by simp [List.drop_eq_nil_iff]; omega)]
      rw [List.drop_drop]
      simp

/-- With chunk size 0 and a nonempty list, the loop index never advances:
after any number of iterations the loop is still running. -/
theorem runChunkLoop_zero_diverges (paths : List String) (hne : paths ≠ []) :
    ∀ (fuel : Nat) (acc : List (List String)),
      ∃ acc', runChunkLoop 0 paths fuel ⟨0, acc⟩ = .running ⟨0, acc'⟩ := by
  intro fuel
  induction fuel with
  | zero => intro acc; exact ⟨acc, rfl⟩
  | succ fuel ih =>
    intro acc
    have hlen : 0 < paths.length := List.length_pos.mpr hne
    have hEnd : goEnd 0 paths 0 = 0 := by
      unfold goEnd
      rw [if_neg (by push_cast; omega)]
      norm_num
    have hstep : chunkLoopStep 0 paths ⟨0, acc⟩ =
        .running ⟨0, acc ++ [goSlice paths 0 (goEnd 0 paths 0)]⟩ := by
      rw [chunkLoopStep]
      rw [if_pos (by push_cast; omega)]
      rw [if_pos (by rw [hEnd]; norm_num)]
      norm_num
    rw [runChunkLoop, hstep]
    exact ih (acc ++ [goSlice paths 0 (goEnd 0 paths 0)])

/-- With negative chunk size and a nonempty list, the first slice operation
of the loop has a negative upper bound and panics. -/
theorem runChunkLoop_neg_panics (k : Int) (hk : k < 0) (paths : List String)
    (hne : paths ≠ []) :
    ∀ fuel, 1 ≤ fuel → runChunkLoop k paths fuel ⟨0, []⟩ = .panicked := by
  have hlen : 0 < paths.length := List.length_pos.mpr hne
  have hEnd : goEnd k paths 0 = k := by
    unfold goEnd
    rw [if_neg (by omega)]
    norm_num
  have hstep : chunkLoopStep k paths ⟨0, []⟩ = .panicked := by
    rw [chunkLoopStep]
    rw [if_pos (by push_cast; omega)]
    rw [if_neg (by rw [hEnd]; push_cast; omega)]
  intro fuel hfuel
  obtain ⟨fuel', rfl⟩ : ∃ f, fuel = f + 1 := ⟨fuel - 1, by omega⟩
  rw [runChunkLoop, hstep]

/-- C10 counterexample: with maxChunkSize = -1 (which is at most 0) and the
nonempty path list of length 1 (longer than -1), the chunk-splitting loop
does terminate — abnormally, by a slice-bounds panic in its first
iteration — contradicting the claim that it never terminates for every
maxChunkSize at most 0. -/
theorem chunk_loop_neg_k_halts :
    runChunkLoop (-1) ["a"] 1 ⟨0, []⟩ = .panicked ∧
    runChunkLoop (-1) ["a"] 2 ⟨0, []⟩ = .panicked ∧
    (-1 : Int) ≤ 0 ∧ ((-1 : Int) < (List.length ["a"] : Int)) :=
  ⟨rfl, rfl, by norm_num, by norm_num⟩

/-- C10 amended: for every nonempty path list, the chunk-partitioning loop
returns normally when maxChunkSize is at least 1 (producing the chunk
partition); with maxChunkSize = 0 it runs forever (the index never
advances); with negative maxChunkSize its first slice operation panics.
So normal termination holds exactly under the precondition
maxChunkSize at least 1. -/
theorem chunk_loop_termination (k : Int) (paths : List String) (hne : paths ≠ []) :
    (1 ≤ k → ∃ fuel, runChunkLoop k paths fuel ⟨0, []⟩ =
        .finished (chunksOf k.toNat paths)) ∧
    (k = 0 → ∀ fuel, ∃ acc, runChunkLoop 0 paths fuel ⟨0, []⟩ = .running ⟨0, acc⟩) ∧
    (k < 0 → ∀ fuel, 1 ≤ fuel → runChunkLoop k paths fuel ⟨0, []⟩ = .panicked) := by
  refine ⟨?_, ?_, ?_⟩
  · intro hk
    obtain ⟨fuel, hfuel⟩ := runChunkLoop_finishes k hk paths 0 []
    exact ⟨fuel, by simpa using hfuel⟩
  · intro hk fuel
    exact runChunkLoop_zero_diverges paths hne fuel []
  · intro hk
    exact runChunkLoop_neg_panics k hk paths hne

/-- Witness for chunk_loop_termination at concrete inputs. -/
theorem chunk_loop_termination_witness :
    (["a", "b", "c"] : List String) ≠ [] ∧
    (1 : Int) ≤ 2 ∧
    (∃ fuel, runChunkLoop 2 ["a", "b", "c"] fuel ⟨0, []⟩ =
      .finished (chunksOf (2 : Int).toNat ["a", "b", "c"])) :=
  ⟨by decide, by norm_num,
   (chunk_loop_termination 2 ["a", "b", "c"] (by decide)).1 (by norm_num)⟩

/-! ## Chunk partition shape and order-independent reassembly -/

/-- The partition has ceil(length / k) chunks. -/
theorem chunksOf_length (k : Nat) (hk : 1 ≤ k) :
    ∀ xs : List String, (chunksOf k xs).length = (xs.length + k - 1) / k := by
  intro xs
  simp [chunksOf]

/-- Chunk i of the partition covers the items from position i*k up to
position i*k + k exclusive (clamped at the end of the list). -/
theorem chunksOf_getElem (k : Nat) (hk : 1 ≤ k) :
    ∀ (xs : List String) (i : Nat), i < (chunksOf k xs).length →
      (chunksOf k xs)[i]? = some ((xs.drop (i * k)).take k) := by
  intro xs i hi
  simp only [chunksOf, List.length_map, List.length_range] at hi
  simp only [chunksOf]
  rw [List.getElem?_map, List.getElem?_range hi]
  rfl

/-- When every result in the completion order is ok, the fan-in loop
returns the accumulator with each index overwritten by its text. -/
theorem collectChunks_ok (run : Nat → GoResult String) (f : Nat → String) :
    ∀ (order : List Nat) (acc : List String),
      (∀ i ∈ order, run i = .ok (f i)) →
      collectChunks run order acc = .ok (order.foldl (fun a i => a.set i (f i)) acc) := by
  intro order
  induction order with
  | nil => intro acc _; rfl
  | cons i rest ih =>
    intro acc h
    have hi : run i = .ok (f i) := h i (by simp)
    rw [collectChunks, hi]
    simp only [List.foldl_cons]
    exact ih (acc.set i (f i)) fun x hx => h x (by simp [hx])

/-- Index-tagged writes leave the accumulator length unchanged. -/
theorem foldl_set_length (f : Nat → String) :
    ∀ (order : List Nat) (acc : List String),
      (order.foldl (fun a i => a.set i (f i)) acc).length = acc.length := by
  intro order
  induction order with
  | nil => intro acc; rfl
  | cons i rest ih =>
    intro acc
    simp only [List.foldl_cons]
    rw [ih (acc.set i (f i)), List.length_set]

/-- After all index-tagged writes, position j holds the text of chunk j if
j was written, and the original entry otherwise. -/
theorem foldl_set_getElem (f : Nat → String) :
    ∀ (order : List Nat) (acc : List String), (∀ i ∈ order, i < acc.length) →
      ∀ j, (order.foldl (fun a i => a.set i (f i)) acc)[j]? =
        if j ∈ order then some (f j) else acc[j]? := by
  intro order
  induction order with
  | nil => intro acc _ j; simp
  | cons i rest ih =>
    intro acc h j
    simp only [List.foldl_cons]
    rw [ih (acc.set i (f i))
      (fun x hx => by rw [List.length_set]; exact h x (by simp [hx]))]
    by_cases hj : j ∈ rest
    · simp [hj]
    · by_cases hij : j = i
      · subst hij
        simp [hj, List.getElem?_set_self (h j (by simp))]
      · rw [if_neg hj, List.getElem?_set_ne (fun hc => hij hc.symm)]
        simp [hj, hij]

/-- C4: index-tagged fan-in: for every completion order (any permutation of
the chunk indices), collecting the ok results into the pre-sized buffer
reconstructs the texts in submission (index) order. -/
theorem chunk_reassembly_order_independent (run : Nat → GoResult String) (f : Nat → String)
    (n : Nat) (order : List Nat) (hperm : order.Perm (List.range n))
    (hok : ∀ i ∈ order, run i = .ok (f i)) :
    collectChunks run order (List.replicate n "") = .ok ((List.range n).map f) := by
  rw [collectChunks_ok run f order _ hok]
  have hmem : ∀ i ∈ order, i < n := fun i hi => List.mem_range.mp (hperm.subset hi)
  have hmem' : ∀ i ∈ order, i < (List.replicate n (α := String) "").length := by
    simpa using hmem
  congr 1
  apply List.ext_getElem?
  intro j
  rw [foldl_set_getElem f order _ hmem' j]
  by_cases hjn : j < n
  · have hj : j ∈ order := hperm.mem_iff.mpr (List.mem_range.mpr hjn)
    simp [hj, hjn]
  · have hj : j ∉ order := fun hc => hjn (hmem j hc)
    have hr : (List.range n)[j]? = none := List.getElem?_eq_none (by simp; omega)
    simp [hj, hjn, hr]
    omega

/-- Witness for chunk_reassembly_order_independent: the chunk texts come
back in the order 2, 0, 1 and are still reassembled as 0, 1, 2. -/
theorem chunk_reassembly_witness :
    ([2, 0, 1] : List Nat).Perm (List.range 3) ∧
    collectChunks (fun i => .ok (toString i)) [2, 0, 1] (List.replicate 3 "") =
      .ok ((List.range 3).map fun i => toString i) :=
  ⟨by decide,
   chunk_reassembly_order_independent (fun i => .ok (toString i)) (fun i => toString i)
     3 [2, 0, 1] (by decide) (fun i _ => rfl)⟩

/-- When some chunk in the completion order fails and all others succeed,
the fan-in loop aborts with that error. -/
theorem collectChunks_err (run : Nat → GoResult String) (e : String) (j : Nat) :
    ∀ (order : List Nat) (acc : List String), j ∈ order → run j = .err e →
      (∀ i ∈ order, i ≠ j → ∃ t, run i = .ok t) →
      collectChunks run order acc = .err e := by
  intro order
  induction order with
  | nil => intro acc hmem; simp at hmem
  | cons i rest ih =>
    intro acc hmem hj hok
    by_cases hij : i = j
    · subst hij
      rw [collectChunks, hj]
    · obtain ⟨t, ht⟩ := hok i (by simp) hij
      rw [collectChunks, ht]
      have hmem' : j ∈ rest := by
        rcases List.mem_cons.mp hmem with hc | hc
        · exact absurd hc.symm hij
        · exact hc
      exact ih (acc.set i t) hmem' hj fun x hx hxj => hok x (by simp [hx]) hxj

/-! ## ParallelExtractTextFromImages: single-call, synthesis and fail-fast -/

/-- In the multi-chunk regime with every chunk call succeeding, the batch
call synthesizes the in-order chunk texts, issuing one extraction call per
chunk and exactly one synthesis call. -/
theorem ParallelExtract_multi_ok (env : Env) (order : List Nat) (paths : List String)
    (k maxPar : Int) (hk : 1 ≤ k) (hlt : k < (paths.length : Int)) (f : Nat → String)
    (horder : order.Perm (List.range (chunksOf k.toNat paths).length))
    (hok : ∀ i ∈ order, env.extractMulti ((chunksOf k.toNat paths).getD i []) = .ok (f i)) :
    ParallelExtractTextFromImages env order paths k maxPar =
      (env.synthesize ((List.range (chunksOf k.toNat paths).length).map f),
       (chunksOf k.toNat paths).map (fun c => Effect.extractMultiCall c) ++
         [.synthCall ((List.range (chunksOf k.toNat paths).length).map f)]) := by
  have hlen : k.toNat < paths.length := by omega
  have hn2 : 2 ≤ (chunksOf k.toNat paths).length := by
    rw [chunksOf_length k.toNat (by omega) paths]
    rw [Nat.le_div_iff_mul_le (by omega)]
    omega
  have hcol := chunk_reassembly_order_independent
    (fun i => env.extractMulti ((chunksOf k.toNat paths).getD i []))
    f (chunksOf k.toNat paths).length order horder hok
  unfold ParallelExtractTextFromImages
  rw [if_neg (by omega), if_neg (by omega)]
  simp only []
  rw [hcol]
  simp only []
  rw [if_neg (by simp; omega)]

/-- In the multi-chunk regime a failing chunk call aborts the batch with
that error; every chunk extraction call is still issued (the goroutines
all run) but no synthesis call appears in the trace. -/
theorem ParallelExtract_chunk_err (env : Env) (order : List Nat) (paths : List String)
    (k maxPar : Int) (hk : 1 ≤ k) (hlt : k < (paths.length : Int))
    (j : Nat) (e : String) (hj : j ∈ order)
    (hfail : env.extractMulti ((chunksOf k.toNat paths).getD j []) = .err e)
    (hok : ∀ i ∈ order, i ≠ j →
      ∃ t, env.extractMulti ((chunksOf k.toNat paths).getD i []) = .ok t) :
    ParallelExtractTextFromImages env order paths k maxPar =
      (.err e, (chunksOf k.toNat paths).map fun c => Effect.extractMultiCall c) := by
  have hcol := collectChunks_err
    (fun i => env.extractMulti ((chunksOf k.toNat paths).getD i []))
    e j order (List.replicate (chunksOf k.toNat paths).length "") hj hfail hok
  unfold ParallelExtractTextFromImages
  rw [if_neg (by omega), if_neg (by omega)]
  simp only []
  rw [hcol]

/-- C3: for a nonempty path list and maxChunkSize k at least 1: when the
list fits in one chunk the batch path issues a single multi-item call and
returns its text with no synthesis; otherwise the list is partitioned into
ceil(N/k) contiguous chunks, chunk i covering the k items from position
i*k (the last chunk holding the remainder), and — for every completion
order — one synthesis call over the in-order chunk texts produces the
final text, with exactly one synthesis call in the trace. -/
theorem batch_single_or_chunked_synthesis (env : Env) (order : List Nat)
    (paths : List String) (k maxPar : Int) (hk : 1 ≤ k) (hne : paths ≠ []) :
    ((paths.length : Int) ≤ k →
      ParallelExtractTextFromImages env order paths k maxPar =
        (env.extractMulti paths, [.extractMultiCall paths])) ∧
    (k < (paths.length : Int) →
      (chunksOf k.toNat paths).length = (paths.length + k.toNat - 1) / k.toNat ∧
      (∀ i, i < (chunksOf k.toNat paths).length →
        (chunksOf k.toNat paths)[i]? = some ((paths.drop (i * k.toNat)).take k.toNat)) ∧
      (∀ f : Nat → String,
        order.Perm (List.range (chunksOf k.toNat paths).length) →
        (∀ i ∈ order, env.extractMulti ((chunksOf k.toNat paths).getD i []) = .ok (f i)) →
        ParallelExtractTextFromImages env order paths k maxPar =
          (env.synthesize ((List.range (chunksOf k.toNat paths).length).map f),
           (chunksOf k.toNat paths).map (fun c => Effect.extractMultiCall c) ++
             [.synthCall ((List.range (chunksOf k.toNat paths).length).map f)]) ∧
        ((chunksOf k.toNat paths).map (fun c => Effect.extractMultiCall c) ++
             [Effect.synthCall ((List.range (chunksOf k.toNat paths).length).map f)]).countP
           Effect.isSynth = 1)) := by
  constructor
  · intro hle
    have h0 : paths.length ≠ 0 := fun hc => hne (List.length_eq_zero.mp hc)
    unfold ParallelExtractTextFromImages
    rw [if_neg h0, if_pos hle]
  · intro hlt
    refine ⟨chunksOf_length k.toNat (by omega) paths, chunksOf_getElem k.toNat (by omega) paths,
      fun f horder hok => ⟨ParallelExtract_multi_ok env order paths k maxPar hk hlt f horder hok, ?_⟩⟩
    rw [List.countP_append]
    have h1 : ((chunksOf k.toNat paths).map
        (fun c => Effect.extractMultiCall c)).countP Effect.isSynth = 0 := by
      rw [List.countP_eq_zero]
      intro a ha
      rw [List.mem_map] at ha
      obtain ⟨c, _, rfl⟩ := ha
      simp [Effect.isSynth]
    rw [h1]
    rfl

/-- Witness for batch_single_or_chunked_synthesis: three paths with chunk
size 5 go out as one call; with chunk size 2 and completion order 1, 0 the
result is the synthesis of both chunk texts in order. -/
theorem batch_single_or_chunked_synthesis_witness :
    ((1 : Int) ≤ 5 ∧ (["p0", "p1", "p2"] : List String) ≠ [] ∧
      (List.length ["p0", "p1", "p2"] : Int) ≤ 5 ∧
      ParallelExtractTextFromImages envUnit [] ["p0", "p1", "p2"] 5 4 =
        (envUnit.extractMulti ["p0", "p1", "p2"], [.extractMultiCall ["p0", "p1", "p2"]])) ∧
    ((1 : Int) ≤ 2 ∧ (2 : Int) < (List.length ["p0", "p1", "p2"] : Int) ∧
      ParallelExtractTextFromImages envUnit [1, 0] ["p0", "p1", "p2"] 2 4 =
        (envUnit.synthesize ["text", "text"],
         [.extractMultiCall ["p0", "p1"], .extractMultiCall ["p2"],
          .synthCall ["text", "text"]])) := by
  constructor
  · refine ⟨by norm_num, by decide, by norm_num, ?_⟩
    exact (batch_single_or_chunked_synthesis envUnit [] ["p0", "p1", "p2"] 5 4
      (by norm_num) (by decide)).1 (by norm_num)
  · refine ⟨by norm_num, by norm_num, ?_⟩
    exact ((batch_single_or_chunked_synthesis envUnit [1, 0] ["p0", "p1", "p2"] 2 4
      (by norm_num) (by decide)).2 (by norm_num)).2.2 (fun _ => "text")
      (by decide) (fun i _ => rfl) |>.1

/-- Converting a list of string payload values back through the per-element
string assertion recovers the list. -/
theorem filterMap_jStrElem_map (paths : List String) :
    (paths.map JValue.jStr).filterMap jStrElem = paths := by
  induction paths with
  | nil => rfl
  | cons p rest ih => simp [jStrElem, ih]

/-- C5: when one chunk of a batch task fails and the others succeed, the
batch handler returns that chunk error immediately: the worker records the
task as failed with the error text as its result payload, and the effect
trace holds only the chunk extraction calls — no synthesis call, no
embedding call and no database insert. -/
theorem batch_chunk_failure_fail_fast (env : Env) (order : List Nat)
    (cfgChunkSize cfgMaxParallel : Int) (paths : List String) (k : Int)
    (taskID : String) (created : Int) (j : Nat) (e : String)
    (hk : 1 ≤ k) (hlt : k < (paths.length : Int))
    (hj : j ∈ order)
    (hfail : env.extractMulti ((chunksOf k.toNat paths).getD j []) = .err e)
    (hok : ∀ i ∈ order, i ≠ j →
      ∃ t, env.extractMulti ((chunksOf k.toNat paths).getD i []) = .ok t) :
    processItemsIteration env order cfgChunkSize cfgMaxParallel false
        (.got { taskID := taskID, taskType := TaskTypeAnalyzeMultipleImages,
                data := [("file_paths", JValue.jList (paths.map JValue.jStr)),
                         ("max_chunk_size", JValue.jNum k)],
                created := created }) =
      (.continued,
       [.setStatus taskID "processing",
        .setStatus taskID "failed",
        .storeResult taskID (some [("error", .jStr e)])],
       (chunksOf k.toNat paths).map fun c => Effect.extractMultiCall c) ∧
    (∀ ts, Effect.synthCall ts ∉
        (chunksOf k.toNat paths).map fun c => Effect.extractMultiCall c) ∧
    (∀ t, Effect.embedCall t ∉
        (chunksOf k.toNat paths).map fun c => Effect.extractMultiCall c) ∧
    (∀ entry, Effect.dbCreateCall entry ∉
        (chunksOf k.toNat paths).map fun c => Effect.extractMultiCall c) := by
  have hpaths : (paths.map JValue.jStr).filterMap jStrElem = paths :=
    filterMap_jStrElem_map paths
  have hlen0 : paths.length ≠ 0 := by omega
  have hpar := ParallelExtract_chunk_err env order paths k cfgMaxParallel hk hlt j e hj
    hfail hok
  have hmulti : processMultipleImagesAnalysisTask env order cfgChunkSize cfgMaxParallel
      { taskID := taskID, taskType := TaskTypeAnalyzeMultipleImages,
        data := [("file_paths", JValue.jList (paths.map JValue.jStr)),
                 ("max_chunk_size", JValue.jNum k)],
        created := created } =
      (.ret none (some e), (chunksOf k.toNat paths).map fun c => Effect.extractMultiCall c) := by
    have hpaths2 : List.filterMap (jStrElem ∘ JValue.jStr) paths = paths := by
      rw [← List.filterMap_map]
      exact hpaths
    have hle : ¬ ((paths.length : Int) ≤ k) := by omega
    unfold processMultipleImagesAnalysisTask
    simp +decide [dataGet, asGoList, asGoFloat, hpaths2, hlen0, hle, hpar]
  have hdisp : dispatchTask env order cfgChunkSize cfgMaxParallel
      { taskID := taskID, taskType := TaskTypeAnalyzeMultipleImages,
        data := [("file_paths", JValue.jList (paths.map JValue.jStr)),
                 ("max_chunk_size", JValue.jNum k)],
        created := created } =
      (.ret none (some e), (chunksOf k.toNat paths).map fun c => Effect.extractMultiCall c) := by
    unfold dispatchTask
    rw [if_neg (by simp [TaskTypeAnalyzeImage, TaskTypeAnalyzeMultipleImages])]
    rw [if_pos rfl]
    exact hmulti
  refine ⟨?_, by simp, by simp, by simp⟩
  simp only [processItemsIteration, recordWrites, hdisp]
  rfl

/-- Witness for batch_chunk_failure_fail_fast: taskBatch (four paths,
chunk size 2) under envChunkFail, where the second chunk fails. -/
theorem batch_chunk_failure_fail_fast_witness :
    (1 : Int) ≤ 2 ∧
    (2 : Int) < (List.length ["p0", "p1", "p2", "p3"] : Int) ∧
    (1 : Nat) ∈ [0, 1] ∧
    envChunkFail.extractMulti ((chunksOf (2 : Int).toNat ["p0", "p1", "p2", "p3"]).getD 1 []) =
      .err "chunk boom" ∧
    processItemsIteration envChunkFail [0, 1] 3 4 false (.got taskBatch) =
      (.continued,
       [.setStatus "9" "processing",
        .setStatus "9" "failed",
        .storeResult "9" (some [("error", .jStr "chunk boom")])],
       [.extractMultiCall ["p0", "p1"], .extractMultiCall ["p2", "p3"]]) := by
  refine ⟨by norm_num, by norm_num, by decide, rfl, ?_⟩
  exact (batch_chunk_failure_fail_fast envChunkFail [0, 1] 3 4 ["p0", "p1", "p2", "p3"] 2
    "9" 0 1 "chunk boom" (by norm_num) (by norm_num) (by decide) rfl
    (fun i hi hne => by
      fin_cases hi
      · exact ⟨"t", rfl⟩
      · exact absurd rfl hne)).1

/-! ## Worker pool shutdown -/

/-- Overwriting one position changes countP by swapping the contribution of
the old entry for that of the new one. -/
theorem countP_set_swap (p : WorkerPhase → Bool) :
    ∀ (l : List WorkerPhase) (i : Nat) (x y : WorkerPhase), l[i]? = some y →
      (l.set i x).countP p + (if p y then 1 else 0) =
        l.countP p + (if p x then 1 else 0) := by
  intro l
  induction l with
  | nil => intro i x y h; simp at h
  | cons a rest ih =>
    intro i x y h
    cases i with
    | zero =>
      simp only [List.getElem?_cons_zero, Option.some.injEq] at h
      subst h
      simp only [List.set_cons_zero, List.countP_cons]
      cases hpx : p x <;> cases hpa : p a <;> simp [hpx, hpa]
    | succ i =>
      simp only [List.getElem?_cons_succ] at h
      simp only [List.set_cons_succ, List.countP_cons]
      have hrec := ih i x y h
      cases hpa : p a <;> simp [hpa] <;> omega

/-- Every pool step preserves the number of workers. -/
theorem poolStep_length (record : TaskPayload → List QueueWrite) (s s' : PoolState)
    (h : PoolStep record s s') : s'.phases.length = s.phases.length := by
  cases h <;> simp [List.length_set]

/-- Reachability preserves the number of workers. -/
theorem poolReaches_length (record : TaskPayload → List QueueWrite) (s s' : PoolState)
    (h : PoolReaches record s s') : s'.phases.length = s.phases.length := by
  induction h with
  | refl => rfl
  | tail _ step ih => rw [poolStep_length record _ _ step, ih]

/-- Every pool step preserves the pool invariant. -/
theorem poolInv_step (record : TaskPayload → List QueueWrite) (s s' : PoolState)
    (h : PoolStep record s s') (hinv : PoolInv s) : PoolInv s' := by
  obtain ⟨hcount, hretd⟩ := hinv
  cases h with
  | closeStop =>
    exact ⟨hcount, fun hr => ⟨rfl, (hretd hr).2⟩⟩
  | dequeueGot i t hstop hph =>
    constructor
    · have hswap := countP_set_swap WorkerPhase.isExited s.phases i (.working t) .atSelect hph
      simp [WorkerPhase.isExited] at hswap
      show s.doneCount = (s.phases.set i (.working t)).countP WorkerPhase.isExited
      omega
    · intro hr
      have hcl := (hretd hr).1
      rw [hcl] at hstop
      exact absurd hstop (by simp)
  | finishTask i t hph =>
    have hne : ¬ (s.stopReturned = true) := by
      intro hr
      have hlen := (hretd hr).2
      have hall : ∀ x ∈ s.phases, WorkerPhase.isExited x = true :=
        List.countP_eq_length.mp (by omega)
      have := hall _ (List.getElem?_mem hph)
      simp [WorkerPhase.isExited] at this
    constructor
    · have hswap := countP_set_swap WorkerPhase.isExited s.phases i (.recorded t) (.working t) hph
      simp [WorkerPhase.isExited] at hswap
      show s.doneCount = (s.phases.set i (.recorded t)).countP WorkerPhase.isExited
      omega
    · intro hr; exact absurd hr hne
  | loopAgain i t hph =>
    have hne : ¬ (s.stopReturned = true) := by
      intro hr
      have hlen := (hretd hr).2
      have hall : ∀ x ∈ s.phases, WorkerPhase.isExited x = true :=
        List.countP_eq_length.mp (by omega)
      have := hall _ (List.getElem?_mem hph)
      simp [WorkerPhase.isExited] at this
    constructor
    · have hswap := countP_set_swap WorkerPhase.isExited s.phases i .atSelect (.recorded t) hph
      simp [WorkerPhase.isExited] at hswap
      show s.doneCount = (s.phases.set i .atSelect).countP WorkerPhase.isExited
      omega
    · intro hr; exact absurd hr hne
  | workerExit i hstop hph =>
    have hne : ¬ (s.stopReturned = true) := by
      intro hr
      have hlen := (hretd hr).2
      have hall : ∀ x ∈ s.phases, WorkerPhase.isExited x = true :=
        List.countP_eq_length.mp (by omega)
      have := hall _ (List.getElem?_mem hph)
      simp [WorkerPhase.isExited] at this
    constructor
    · have hswap := countP_set_swap WorkerPhase.isExited s.phases i .exited .atSelect hph
      simp [WorkerPhase.isExited] at hswap
      show s.doneCount + 1 = (s.phases.set i .exited).countP WorkerPhase.isExited
      omega
    · intro hr; exact absurd hr hne
  | stopReturn hstop hdone =>
    exact ⟨hcount, fun _ => ⟨hstop, hdone⟩⟩

/-- The pool invariant holds along every reachable path. -/
theorem poolInv_reaches (record : TaskPayload → List QueueWrite) (s s' : PoolState)
    (h : PoolReaches record s s') (hinv : PoolInv s) : PoolInv s' := by
  induction h with
  | refl => exact hinv
  | tail _ step ih => exact poolInv_step record _ _ step ih

/-- The freshly started pool satisfies the invariant. -/
theorem poolInit_inv (n : Nat) : PoolInv (initPool n) := by
  constructor
  · have h0 : (List.replicate n WorkerPhase.atSelect).countP WorkerPhase.isExited = 0 :=
      List.countP_eq_zero.mpr fun a ha => by
        rw [List.eq_of_mem_replicate ha]
        simp [WorkerPhase.isExited]
    show (0 : Nat) = (List.replicate n WorkerPhase.atSelect).countP WorkerPhase.isExited
    omega
  · intro hr; simp [initPool] at hr

/-- Once every worker has exited, every later state still has every worker
exited. -/
theorem allExited_step (record : TaskPayload → List QueueWrite) (s s' : PoolState)
    (h : PoolStep record s s') (hall : ∀ p ∈ s.phases, p = .exited) :
    ∀ p ∈ s'.phases, p = .exited := by
  cases h with
  | closeStop => exact hall
  | dequeueGot i t hstop hph =>
    have := hall _ (List.getElem?_mem hph)
    simp at this
  | finishTask i t hph =>
    have := hall _ (List.getElem?_mem hph)
    simp at this
  | loopAgain i t hph =>
    have := hall _ (List.getElem?_mem hph)
    simp at this
  | workerExit i hstop hph =>
    have := hall _ (List.getElem?_mem hph)
    simp at this
  | stopReturn hstop hdone => exact hall

/-- When a reachable state has Stop returned, every worker loop has exited:
Stop received one done signal per worker and a done signal is sent only
when a loop returns. -/
theorem reaches_stopReturned_all_exited (record : TaskPayload → List QueueWrite)
    (s0 s1 : PoolState) (h : PoolReaches record s0 s1) (hinv : PoolInv s0)
    (hret : s1.stopReturned = true) : ∀ p ∈ s1.phases, p = .exited := by
  induction h with
  | refl =>
    have hlen := (hinv.2 hret).2
    have hcount := hinv.1
    have hall : ∀ x ∈ s0.phases, WorkerPhase.isExited x = true :=
      List.countP_eq_length.mp (by omega)
    intro p hp
    have := hall p hp
    cases p <;> simp [WorkerPhase.isExited] at this ⊢
  | tail hreach step ih =>
    rename_i b c
    by_cases hb : b.stopReturned = true
    · exact allExited_step record b c step (ih hb)
    · have hinvb := poolInv_reaches record s0 b hreach hinv
      cases step with
      | closeStop => simp at hret; exact absurd hret hb
      | dequeueGot i t hstop hph => simp at hret; exact absurd hret hb
      | finishTask i t hph => simp at hret; exact absurd hret hb
      | loopAgain i t hph => simp at hret; exact absurd hret hb
      | workerExit i hstop hph => simp at hret; exact absurd hret hb
      | stopReturn hstop hdone =>
        have hall : ∀ x ∈ b.phases, WorkerPhase.isExited x = true :=
          List.countP_eq_length.mp (by have := hinvb.1; omega)
        intro p hp
        have := hall p hp
        cases p <;> simp [WorkerPhase.isExited] at this ⊢

/-- A worker that held task t and later exited must have passed through a
step that recorded the terminal writes of t: the loop checks the stop
channel only at the loop boundary, after the iteration completed. -/
theorem working_to_exited_records (record : TaskPayload → List QueueWrite)
    (i : Nat) (t : TaskPayload) :
    ∀ s s', PoolReaches record s s' →
      s.phases[i]? = some (.working t) → s'.phases[i]? = some .exited →
      ∃ sPrev sR, PoolReaches record s sPrev ∧ PoolStep record sPrev sR ∧
        PoolReaches record sR s' ∧ sPrev.phases[i]? = some (.working t) ∧
        sR.phases[i]? = some (.recorded t) ∧
        sR.writes = sPrev.writes ++ record t := by
  intro s s' hreach
  induction hreach using Relation.ReflTransGen.head_induction_on with
  | refl =>
    intro hw hx
    rw [hw] at hx
    simp at hx
  | head step rest ih =>
    intro hw hx
    cases step with
    | closeStop =>
      obtain ⟨sPrev, sR, h1, h2, h3, h4, h5, h6⟩ := ih (by simpa using hw) hx
      exact ⟨sPrev, sR, Relation.ReflTransGen.head (PoolStep.closeStop _) h1,
        h2, h3, h4, h5, h6⟩
    | dequeueGot i' t' hstop hph =>
      by_cases hii : i' = i
      · subst hii
        rw [hph] at hw
        simp at hw
      · obtain ⟨sPrev, sR, h1, h2, h3, h4, h5, h6⟩ := ih
          (by simpa [List.getElem?_set_ne hii] using hw) hx
        exact ⟨sPrev, sR,
          Relation.ReflTransGen.head (PoolStep.dequeueGot _ i' t' hstop hph) h1,
          h2, h3, h4, h5, h6⟩
    | finishTask i' t' hph =>
      by_cases hii : i' = i
      · subst hii
        have htt : t' = t := by
          rw [hph] at hw
          simpa using hw
        subst htt
        have hib := (List.getElem?_eq_some.mp hph).1
        refine ⟨_, _, Relation.ReflTransGen.refl,
          PoolStep.finishTask _ i' t' hph, rest, hph, ?_, rfl⟩
        simpa using List.getElem?_set_self (a := WorkerPhase.recorded t') hib
      · obtain ⟨sPrev, sR, h1, h2, h3, h4, h5, h6⟩ := ih
          (by simpa [List.getElem?_set_ne hii] using hw) hx
        exact ⟨sPrev, sR,
          Relation.ReflTransGen.head (PoolStep.finishTask _ i' t' hph) h1,
          h2, h3, h4, h5, h6⟩
    | loopAgain i' t' hph =>
      by_cases hii : i' = i
      · subst hii
        rw [hph] at hw
        simp at hw
      · obtain ⟨sPrev, sR, h1, h2, h3, h4, h5, h6⟩ := ih
          (by simpa [List.getElem?_set_ne hii] using hw) hx
        exact ⟨sPrev, sR,
          Relation.ReflTransGen.head (PoolStep.loopAgain _ i' t' hph) h1,
          h2, h3, h4, h5, h6⟩
    | workerExit i' hstop hph =>
      by_cases hii : i' = i
      · subst hii
        rw [hph] at hw
        simp at hw
      · obtain ⟨sPrev, sR, h1, h2, h3, h4, h5, h6⟩ := ih
          (by simpa [List.getElem?_set_ne hii] using hw) hx
        exact ⟨sPrev, sR,
          Relation.ReflTransGen.head (PoolStep.workerExit _ i' hstop hph) h1,
          h2, h3, h4, h5, h6⟩
    | stopReturn hstop hdone =>
      obtain ⟨sPrev, sR, h1, h2, h3, h4, h5, h6⟩ := ih (by simpa using hw) hx
      exact ⟨sPrev, sR,
        Relation.ReflTransGen.head (PoolStep.stopReturn _ hstop hdone) h1,
        h2, h3, h4, h5, h6⟩

/-- C7: from the started pool, whenever worker i holds a dequeued task t in
some intermediate state and Stop later returns, then (a) at the moment
Stop returns every one of the worker loops has exited — Stop blocked for
all done signals — and (b) between those two states there is a step in
which worker i records the terminal writes of t before exiting: its writes
include a terminal status (completed or failed) and a stored result for t,
provided the handler returns rather than panics. -/
theorem stop_waits_for_workers (env : Env) (order : List Nat)
    (cfgChunkSize cfgMaxParallel : Int) (n : Nat) (sMid s1 : PoolState)
    (i : Nat) (t : TaskPayload)
    (h0 : PoolReaches (recordWrites env order cfgChunkSize cfgMaxParallel)
      (initPool n) sMid)
    (h1 : PoolReaches (recordWrites env order cfgChunkSize cfgMaxParallel) sMid s1)
    (hw : sMid.phases[i]? = some (.working t))
    (hret : s1.stopReturned = true)
    (hnf : ∀ m, (dispatchTask env order cfgChunkSize cfgMaxParallel t).1 ≠ .fault m) :
    (∀ p ∈ s1.phases, p = .exited) ∧
    ∃ sPrev sR,
      PoolReaches (recordWrites env order cfgChunkSize cfgMaxParallel) sMid sPrev ∧
      PoolStep (recordWrites env order cfgChunkSize cfgMaxParallel) sPrev sR ∧
      PoolReaches (recordWrites env order cfgChunkSize cfgMaxParallel) sR s1 ∧
      sR.phases[i]? = some (.recorded t) ∧
      sR.writes = sPrev.writes ++ recordWrites env order cfgChunkSize cfgMaxParallel t ∧
      (QueueWrite.setStatus t.taskID "completed" ∈ sR.writes ∨
       QueueWrite.setStatus t.taskID "failed" ∈ sR.writes) ∧
      ∃ res, QueueWrite.storeResult t.taskID res ∈ sR.writes := by
  have hall : ∀ p ∈ s1.phases, p = .exited :=
    reaches_stopReturned_all_exited _ _ _ (h0.trans h1) (poolInit_inv n) hret
  refine ⟨hall, ?_⟩
  have hib : i < sMid.phases.length := (List.getElem?_eq_some.mp hw).1
  have hib1 : i < s1.phases.length := by
    rw [poolReaches_length _ _ _ h1]
    exact hib
  have hx : s1.phases[i]? = some .exited := by
    have hsome : s1.phases[i]? = some (s1.phases.get ⟨i, hib1⟩) := by
      simp [List.getElem?_eq_getElem hib1]
    rw [hsome, hall _ (List.getElem?_mem hsome)]
  obtain ⟨sPrev, sR, h1', h2', h3', h4', h5', h6'⟩ :=
    working_to_exited_records _ i t sMid s1 h1 hw hx
  refine ⟨sPrev, sR, h1', h2', h3', h5', h6', ?_, ?_⟩
  · rw [h6', recordWrites]
    cases hd : (dispatchTask env order cfgChunkSize cfgMaxParallel t).1 with
    | ret result errMsg =>
      cases errMsg with
      | none => left; simp
      | some e => right; simp
    | fault m => exact absurd hd (hnf m)
  · rw [h6', recordWrites]
    cases hd : (dispatchTask env order cfgChunkSize cfgMaxParallel t).1 with
    | ret result errMsg =>
      cases errMsg with
      | none => exact ⟨result, by simp⟩
      | some e => exact ⟨some [("error", .jStr e)], by simp⟩
    | fault m => exact absurd hd (hnf m)

/-- Witness for stop_waits_for_workers: a one-worker pool that dequeues
taskUnknown, is stopped mid-run, records the outcome, exits, and lets Stop
return. -/
theorem stop_waits_for_workers_witness :
    poolMid.phases[0]? = some (.working taskUnknown) ∧
    poolFinal.stopReturned = true ∧
    ((∀ p ∈ poolFinal.phases, p = .exited) ∧
     ∃ sPrev sR,
       PoolReaches (recordWrites envUnit [] 3 4) poolMid sPrev ∧
       PoolStep (recordWrites envUnit [] 3 4) sPrev sR ∧
       PoolReaches (recordWrites envUnit [] 3 4) sR poolFinal ∧
       sR.phases[0]? = some (.recorded taskUnknown) ∧
       sR.writes = sPrev.writes ++ recordWrites envUnit [] 3 4 taskUnknown ∧
       (QueueWrite.setStatus taskUnknown.taskID "completed" ∈ sR.writes ∨
        QueueWrite.setStatus taskUnknown.taskID "failed" ∈ sR.writes) ∧
       ∃ res, QueueWrite.storeResult taskUnknown.taskID res ∈ sR.writes) := by
  have step1 : PoolStep (recordWrites envUnit [] 3 4) (initPool 1) poolMid :=
    PoolStep.dequeueGot (initPool 1) 0 taskUnknown rfl rfl
  have step2 : PoolStep (recordWrites envUnit [] 3 4) poolMid
      { stopClosed := false, phases := [.recorded taskUnknown],
        writes := [.setStatus "7" "processing", .setStatus "7" "completed",
                   .storeResult "7" (some [("error", .jStr "unknown task type")])],
        doneCount := 0, stopReturned := false } :=
    PoolStep.finishTask poolMid 0 taskUnknown rfl
  have step3 : PoolStep (recordWrites envUnit [] 3 4)
      { stopClosed := false, phases := [.recorded taskUnknown],
        writes := [.setStatus "7" "processing", .setStatus "7" "completed",
                   .storeResult "7" (some [("error", .jStr "unknown task type")])],
        doneCount := 0, stopReturned := false }
      { stopClosed := false, phases := [.atSelect],
        writes := [.setStatus "7" "processing", .setStatus "7" "completed",
                   .storeResult "7" (some [("error", .jStr "unknown task type")])],
        doneCount := 0, stopReturned := false } :=
    PoolStep.loopAgain _ 0 taskUnknown rfl
  have step4 : PoolStep (recordWrites envUnit [] 3 4)
      { stopClosed := false, phases := [.atSelect],
        writes := [.setStatus "7" "processing", .setStatus "7" "completed",
                   .storeResult "7" (some [("error", .jStr "unknown task type")])],
        doneCount := 0, stopReturned := false }
      { stopClosed := true, phases := [.atSelect],
        writes := [.setStatus "7" "processing", .setStatus "7" "completed",
                   .storeResult "7" (some [("error", .jStr "unknown task type")])],
        doneCount := 0, stopReturned := false } :=
    PoolStep.closeStop _
  have step5 : PoolStep (recordWrites envUnit [] 3 4)
      { stopClosed := true, phases := [.atSelect],
        writes := [.setStatus "7" "processing", .setStatus "7" "completed",
                   .storeResult "7" (some [("error", .jStr "unknown task type")])],
        doneCount := 0, stopReturned := false }
      { stopClosed := true, phases := [.exited],
        writes := [.setStatus "7" "processing", .setStatus "7" "completed",
                   .storeResult "7" (some [("error", .jStr "unknown task type")])],
        doneCount := 1, stopReturned := false } :=
    PoolStep.workerExit _ 0 rfl rfl
  have step6 : PoolStep (recordWrites envUnit [] 3 4)
      { stopClosed := true, phases := [.exited],
        writes := [.setStatus "7" "processing", .setStatus "7" "completed",
                   .storeResult "7" (some [("error", .jStr "unknown task type")])],
        doneCount := 1, stopReturned := false } poolFinal :=
    PoolStep.stopReturn _ rfl rfl
  have h1 : PoolReaches (recordWrites envUnit [] 3 4) poolMid poolFinal :=
    Relation.ReflTransGen.head step2 (Relation.ReflTransGen.head step3
      (Relation.ReflTransGen.head step4 (Relation.ReflTransGen.head step5
        (Relation.ReflTransGen.single step6))))
  refine ⟨rfl, rfl, ?_⟩
  exact stop_waits_for_workers envUnit [] 3 4 1 poolMid poolFinal 0 taskUnknown
    (Relation.ReflTransGen.single step1) h1 rfl rfl
    (fun m h => HandlerOutcome.noConfusion h)

end GoImageVector
